import Mathlib

/-!
Verification of the configuration-generator core of this repository.

The definitions below are shallow embeddings of the source functions:
* `formatFooterContent` from `src/components/internal/ConfiguratorPage.tsx`
  (the `~/lib/utils` portion bundled in that file, lines 326-346),
* the version detection regex and the version-group lookup from
  `onLoadConfig` (lines 142-158),
* the load orchestration `onLoadEnv` / `onLoadConfig` (lines 88-182),
* the site-name-template preview from `ConfiguratorPage.Site.tsx`
  (lines 190-197),
* the field-array edit operations used by `NavbarItemsField`,
* the download file name from `onFormSubmit` (line 77).

JavaScript string and regex semantics are embedded explicitly: `\w` is
`[A-Za-z0-9_]`, `\s` is the ECMAScript whitespace class, `String.trim`
strips that class from both ends, `String.replace` with a string pattern
rewrites the first occurrence and interprets dollar escapes in the
replacement, and a global regex replace rewrites non-overlapping matches
left to right.
-/

namespace ConfigGen

/-- ECMAScript `\w` character class: ASCII letters, digits and underscore. -/
def jsWordChar (c : Char) : Bool :=
  (decide (97 ≤ c.toNat) && decide (c.toNat ≤ 122)) ||
  (decide (65 ≤ c.toNat) && decide (c.toNat ≤ 90)) ||
  (decide (48 ≤ c.toNat) && decide (c.toNat ≤ 57)) ||
  decide (c.toNat = 95)

/-- ECMAScript `\s` character class (WhiteSpace plus LineTerminator),
by code point: space, tab, line feed, carriage return, vertical tab,
form feed, and the Unicode space separators. -/
def jsWhitespace (c : Char) : Bool :=
  decide (c.toNat = 32) || decide (c.toNat = 9) || decide (c.toNat = 10) ||
  decide (c.toNat = 13) || decide (c.toNat = 11) || decide (c.toNat = 12) ||
  decide (c.toNat = 0xA0) || decide (c.toNat = 0x1680) ||
  (decide (0x2000 ≤ c.toNat) && decide (c.toNat ≤ 0x200A)) ||
  decide (c.toNat = 0x2028) || decide (c.toNat = 0x2029) ||
  decide (c.toNat = 0x202F) || decide (c.toNat = 0x205F) ||
  decide (c.toNat = 0x3000) || decide (c.toNat = 0xFEFF)

/-- JavaScript `String.prototype.trim` on a character list: drop the
whitespace class from both ends. -/
def jsTrimL (l : List Char) : List Char :=
  ((l.dropWhile jsWhitespace).reverse.dropWhile jsWhitespace).reverse

/-- JavaScript `String.prototype.trim`. -/
def jsTrim (s : String) : String :=
  String.mk (jsTrimL s.data)

/-- JavaScript `Array.prototype.join("\n")`. -/
def joinLines : List String → String
  | [] => ""
  | [x] => x
  | x :: xs => x ++ "\n" ++ joinLines xs

/-! ## Data model

Shapes of the `site` section used by the configurator, reconstructed from
the field paths accessed in `ConfiguratorPage.Site.tsx` and the fields
read by `formatFooterContent`. -/

/-- One entry of `site.navbarItems`: icon id, label, href, external flag. -/
structure NavbarItem where
  icon : String
  name : String
  href : String
  external : Bool
deriving DecidableEq

/-- One entry of `site.supports`: currency, service name, href. -/
structure SupportItem where
  currency : String
  name : String
  href : String
deriving DecidableEq

/-- One entry of `site.footer`: a raw template string wrapped in `{ value }`. -/
structure FooterItem where
  value : String
deriving DecidableEq

/-- The `site.toaster` subobject: duration and position. -/
structure ToasterConfig where
  duration : Nat
  position : String
deriving DecidableEq

/-- The `site` section of the configuration document.  Fields read with a
`?? fallback` in the source are optional. -/
structure SiteConfig where
  siteName : Option String
  siteNameTemplate : Option String
  siteDescription : String
  siteAuthor : Option String
  twitterHandle : Option String
  robots : String
  breadcrumbMax : Nat
  privateIndex : Bool
  guideButton : Bool
  toaster : ToasterConfig
  navbarItems : List NavbarItem
  supports : List SupportItem
  footer : List FooterItem
deriving DecidableEq

/-- Ambient values read by `formatFooterContent` outside its arguments:
the current year from `new Date().getFullYear()`, the global
`config.version`, and the global `config.siteConfig` used when no site
config is passed. -/
structure AmbientEnv where
  year : Nat
  version : Option String
  defaultSite : SiteConfig

/-- JavaScript template-literal interpolation of `config.version`: an
undefined version prints as the text `undefined`. -/
def versionInterp (v : Option String) : String :=
  match v with
  | some s => s
  | none => "undefined"

/-- The `formatMap` object of `formatFooterContent`, as a lookup from key
to value; absent keys give `none` (the source then falls back to `""`). -/
def formatMapLookup (env : AmbientEnv) (data : SiteConfig) (key : String) : Option String :=
  if key = "year" then some (Nat.repr env.year)
  else if key = "repository" then
    some "[Source Code](https://github.com/mbaharip/next-gdrive-index)"
  else if key = "poweredBy" then
    some ("Powered by [next-gdrive-index v" ++ versionInterp env.version ++
      "](https://github.com/mbaharip/next-gdrive-index)")
  else if key = "author" then some (data.siteAuthor.getD "mbaharip")
  else if key = "version" then some (env.version.getD "0.0.0")
  else if key = "siteName" then some (data.siteName.getD "next-gdrive-index")
  else if key = "handle" then some (data.twitterHandle.getD "@__mbaharip__")
  else if key = "creator" then some "mbaharip"
  else none

/-- Try to match the regex `{{\s*(\w+)\s*}}` at the head of the list.
Returns the captured key and the remainder after the match. -/
def tokenAt : List Char → Option (List Char × List Char)
  | '{' :: '{' :: rest =>
    let afterWs := rest.dropWhile jsWhitespace
    let key := afterWs.takeWhile jsWordChar
    let afterKey := afterWs.dropWhile jsWordChar
    let afterWs2 := afterKey.dropWhile jsWhitespace
    if key = [] then none
    else
      match afterWs2 with
      | '}' :: '}' :: rest2 => some (key, rest2)
      | _ => none
  | _ => none

/-- Global regex replacement for `{{\s*(\w+)\s*}}`: scan left to right,
substituting each non-overlapping match and continuing after it.  The
fuel argument only bounds the recursion; one unit per examined position
(`l.length` units) always suffices because every step consumes at least
one character. -/
def replaceTokensGo (lookup : String → String) : Nat → List Char → List Char
  | 0, l => l
  | _ + 1, [] => []
  | fuel + 1, c :: cs =>
    match tokenAt (c :: cs) with
    | some (key, rest) => (lookup (String.mk key)).data ++ replaceTokensGo lookup fuel rest
    | none => c :: replaceTokensGo lookup fuel cs

/-- Global regex replacement for `{{\s*(\w+)\s*}}` over a character list. -/
def replaceTokens (lookup : String → String) (l : List Char) : List Char :=
  replaceTokensGo lookup l.length l

/-- `formatFooterContent` from the source: trim every footer line, join
with newlines, then substitute each `{{ key }}` token from `formatMap`,
with `""` for unknown keys.  `siteConfig` falls back to the global
`config.siteConfig` when absent, exactly as `siteConfig ?? config.siteConfig`. -/
def formatFooterContent (env : AmbientEnv) (siteConfig : Option SiteConfig)
    (text : List FooterItem) : String :=
  let data := siteConfig.getD env.defaultSite
  String.mk (replaceTokens
    (fun k => (formatMapLookup env data k).getD "")
    (joinLines (text.map (fun item => jsTrim item.value))).data)

/-! ## Version detection (`onLoadConfig`, line 142)

The source runs `/version:\s*["']?(\d+\.\d+\.\d+)["']?/.exec(text)` and
takes the first capture group. -/

/-- The literal part `version:` of the version regex. -/
def litVersion : List Char := ['v', 'e', 'r', 's', 'i', 'o', 'n', ':']

/-- Single quote character, written by code to keep the embedding plain. -/
def squote : Char := Char.ofNat 39

/-- Try to match `version:\s*["']?(\d+\.\d+\.\d+)["']?` at the head of
the list, returning the captured semantic-version characters. -/
def matchVersionAt (l : List Char) : Option (List Char) :=
  if litVersion.isPrefixOf l then
    let r1 := (l.drop 8).dropWhile jsWhitespace
    let r2 :=
      match r1 with
      | '"' :: t => t
      | c :: t => if c = squote then t else c :: t
      | [] => []
    let d1 := r2.takeWhile Char.isDigit
    if d1 = [] then none
    else
      match r2.drop d1.length with
      | '.' :: r3 =>
        let d2 := r3.takeWhile Char.isDigit
        if d2 = [] then none
        else
          match r3.drop d2.length with
          | '.' :: r4 =>
            let d3 := r4.takeWhile Char.isDigit
            if d3 = [] then none
            else some (d1 ++ '.' :: d2 ++ '.' :: d3)
          | _ => none
      | _ => none
  else none

/-- Regex search: try every position left to right, first match wins. -/
def scanVersion : List Char → Option (List Char)
  | [] => none
  | c :: cs =>
    match matchVersionAt (c :: cs) with
    | some v => some v
    | none => scanVersion cs

/-- `detectVersion`: the version-extraction step of `onLoadConfig`. -/
def detectVersion (s : String) : Option String :=
  (scanVersion s.data).map String.mk

/-! ## Version classification (`onLoadConfig`, line 150) -/

/-- The classification step:
`Object.entries(versionExpectMap).find(([_, v]) => v.includes(version))?.[0]`.
Entries are scanned in table order; the first group whose list contains
the version wins; no match yields `none`. -/
def classify (table : List (String × List String)) (version : String) : Option String :=
  (table.find? (fun p => p.2.contains version)).map Prod.fst

/-- Modelled from the spec: `versionExpectMap` lives in
`~/lib/configurationHelper`, which is not part of the sources here.  The
spec describes it as a static table mapping each version group ("v1",
"v2", "latest") to the set of concrete version strings it accepts, with
every version belonging to exactly one group, and gives
`"v1" = {"1.0.0", "1.2.0"}` as an example. -/
def versionExpectMap : List (String × List String) :=
  [("v1", ["1.0.0", "1.2.0"]), ("v2", ["2.0.0"]), ("latest", ["3.0.0"])]

/-! ## Load orchestration (`onLoadEnv` lines 88-121, `onLoadConfig` lines 124-182) -/

/-- Result of the `pickFile` collaborator:
`{success: true, data} | {success: false, message, details}`. -/
inductive PickFileResponse where
  | ok (data : String)
  | err (message : String) (details : List String)

/-- Result shape of the `ProcessConfiguration` / `ProcessEnvironmentConfig`
server actions: `{success: true, message, data} | {success: false, message, error}`.
The actions themselves are outside these sources, so the orchestration is
parametrised by them. -/
inductive ActionResult (α : Type) where
  | ok (message : String) (data : α)
  | err (message : String) (error : String)

/-- Outcome of a load operation: which toast ended it. -/
inductive LoadOutcome where
  | success (message : String)
  | failure (message : String)
deriving DecidableEq

/-- The in-session configuration document held by the form: the three
sections `api`, `site`, `environment`.  `api` and `environment` are
opaque to the claims, so their types are parameters. -/
structure Document (Api Env : Type) where
  api : Api
  site : SiteConfig
  environment : Env
deriving DecidableEq

/-- Payload of a successful `ProcessConfiguration`: the new `api` and
`site` sections. -/
structure ConfigPayload (Api : Type) where
  api : Api
  site : SiteConfig

/-- `onLoadEnv`: on a failed file pick or a failed `ProcessEnvironmentConfig`
the function returns after the error toast; on success it runs
`form.setValue("environment", data.data)`. -/
def onLoadEnv {Api Env : Type} (process : String → ActionResult Env)
    (doc : Document Api Env) : PickFileResponse → Document Api Env × LoadOutcome
  | .err m _ => (doc, .failure m)
  | .ok data =>
    match process data with
    | .err m _ => (doc, .failure m)
    | .ok m d => ({ doc with environment := d }, .success m)

/-- `onLoadConfig`: file pick, version detection, version classification
and `ProcessConfiguration` in sequence, each failure returning after its
error toast; on success the source runs `form.setValue` on `api`, `site`
and then explicitly on the three array fields of `site`, which is
modelled by the same sequence of record updates. -/
def onLoadConfig {Api Env : Type} (table : List (String × List String))
    (process : String → String → ActionResult (ConfigPayload Api))
    (doc : Document Api Env) : PickFileResponse → Document Api Env × LoadOutcome
  | .err m _ => (doc, .failure m)
  | .ok data =>
    match detectVersion data with
    | none => (doc, .failure "Version not found in configuration file")
    | some v =>
      match classify table v with
      | none => (doc, .failure "Version not recognized")
      | some g =>
        match process data g with
        | .err m _ => (doc, .failure m)
        | .ok m payload =>
          let d1 := { doc with api := payload.api }
          let d2 := { d1 with site := payload.site }
          let d3 := { d2 with site := { d2.site with navbarItems := payload.site.navbarItems } }
          let d4 := { d3 with site := { d3.site with supports := payload.site.supports } }
          let d5 := { d4 with site := { d4.site with footer := payload.site.footer } }
          (d5, .success m)

/-! ## Site-name template preview (`ConfiguratorPage.Site.tsx`, lines 190-197)

The source renders
`(template ?? "No template").replace("%t", siteName ?? "Apunte UDA").replace("%s", "Page Title Goes Here")`.
JavaScript `String.prototype.replace` with a string pattern rewrites only
the first occurrence and interprets dollar escapes in the replacement
(`$$`, `$&`, dollar-backtick, dollar-quote; `$n` is literal because a
string pattern has no capture groups). -/

/-- Backtick character, written by code to keep the embedding plain. -/
def btick : Char := Char.ofNat 96

/-- ECMAScript `GetSubstitution` for a string pattern: expand the dollar
escapes of the replacement text.  `matched` is the matched pattern,
`before` the part of the subject before the match, `after` the part
after it. -/
def getSubst (matched before after : List Char) : List Char → List Char
  | [] => []
  | c :: rest =>
    if c = '$' then
      match rest with
      | '$' :: r => '$' :: getSubst matched before after r
      | '&' :: r => matched ++ getSubst matched before after r
      | d :: r =>
        if d = btick then before ++ getSubst matched before after r
        else if d = squote then after ++ getSubst matched before after r
        else '$' :: getSubst matched before after (d :: r)
      | [] => ['$']
    else c :: getSubst matched before after rest

/-- First occurrence of `pat` in a list: the part before the match and
the part after it.  An empty pattern matches immediately, as in
JavaScript `indexOf`. -/
def firstSplit (pat : List Char) : List Char → Option (List Char × List Char)
  | [] => if pat = [] then some ([], []) else none
  | c :: cs =>
    if pat.isPrefixOf (c :: cs) then some ([], (c :: cs).drop pat.length)
    else
      match firstSplit pat cs with
      | some (a, b) => some (c :: a, b)
      | none => none

/-- JavaScript `String.prototype.replace` with string pattern and string
replacement, on character lists. -/
def jsReplaceFirstL (pat rep l : List Char) : List Char :=
  match firstSplit pat l with
  | some (a, b) => a ++ getSubst pat a b rep ++ b
  | none => l

/-- The `%t` placeholder token. -/
def tokT : List Char := ['%', 't']

/-- The `%s` placeholder token. -/
def tokS : List Char := ['%', 's']

/-- The site-name preview expression of the source, generalised over the
page title that the preview hard-codes to `"Page Title Goes Here"`:
`t.replace("%t", n).replace("%s", s)`. -/
def renderSiteName (t n s : String) : String :=
  String.mk (jsReplaceFirstL tokS s.data (jsReplaceFirstL tokT n.data t.data))

/-- The full preview expression with its `??` fallbacks:
`(template ?? "No template").replace("%t", siteName ?? "Apunte UDA").replace("%s", "Page Title Goes Here")`. -/
def sitePreview (template siteName : Option String) : String :=
  renderSiteName (template.getD "No template") (siteName.getD "Apunte UDA")
    "Page Title Goes Here"

/-- Literal first-occurrence replacement, used to reason about
`jsReplaceFirstL` when the replacement contains no dollar character. -/
def repFirstL (pat rep : List Char) : List Char → List Char
  | [] => []
  | c :: cs =>
    if pat.isPrefixOf (c :: cs) then rep ++ (c :: cs).drop pat.length
    else c :: repFirstL pat rep cs

/-- Modelled from the spec sentence for the site-name template: the first
occurrence of `%t` in the template is replaced by the site name, the
first occurrence of `%s` in the template by the page title, and any
further occurrence of either token is left verbatim.  The two flags
record which token has already been substituted. -/
def simulSubst (n s : List Char) : Bool → Bool → List Char → List Char
  | _, _, [] => []
  | _, _, [c] => [c]
  | tdone, sdone, c :: d :: cs =>
    if tdone = false ∧ c = '%' ∧ d = 't' then n ++ simulSubst n s true sdone cs
    else if sdone = false ∧ c = '%' ∧ d = 's' then s ++ simulSubst n s tdone true cs
    else c :: simulSubst n s tdone sdone (d :: cs)

/-- Independent first-occurrence substitution of both placeholder tokens,
as the spec describes the rendered site name. -/
def specSiteName (t n s : String) : String :=
  String.mk (simulSubst n.data s.data false false t.data)

/-! ## Navbar item edits (`NavbarItemsField`, `ConfiguratorPage.Site.tsx`)

`useFieldArray` exposes `append` and `remove`; within one synchronous
batch they are ordinary ordered-sequence operations. -/

/-- `append` of the navbar field array: push one item at the end. -/
def navbarAppend (l : List NavbarItem) (x : NavbarItem) : List NavbarItem :=
  l ++ [x]

/-- `remove(index)` of the navbar field array: delete the element at the
index. -/
def navbarRemoveAt (l : List NavbarItem) (i : Nat) : List NavbarItem :=
  l.eraseIdx i

/-! ## Download file name (`onFormSubmit`, line 77) -/

/-- The suggested download name built by `onFormSubmit`:
the template literal `${Date.now()}-gIndex.config.zip` with `now` the
millisecond unix timestamp. -/
def downloadName (now : Nat) : String :=
  Nat.repr now ++ "-gIndex.config.zip"

/-! ## Sample data for concrete instantiations -/

/-- A concrete site configuration used to instantiate theorems. -/
def sampleSite : SiteConfig where
  siteName := some "Apuntes UDA"
  siteNameTemplate := some "%s - %t"
  siteDescription := "A simple file browser"
  siteAuthor := some "mbaharip"
  twitterHandle := some "@__mbaharip__"
  robots := "noindex, nofollow"
  breadcrumbMax := 3
  privateIndex := false
  guideButton := false
  toaster := { duration := 3000, position := "bottom-right" }
  navbarItems := []
  supports := []
  footer := [{ value := "{{ poweredBy }}" }]

/-- A concrete ambient environment with the year 2024. -/
def sampleEnv : AmbientEnv where
  year := 2024
  version := some "1.0.0"
  defaultSite := sampleSite

/-- The same ambient environment one year later. -/
def sampleEnv2025 : AmbientEnv :=
  { sampleEnv with year := 2025 }

/-- A concrete document for concrete instantiations, with opaque sections
instantiated by numbers. -/
def docW : Document Nat Nat :=
  { api := 0, site := sampleSite, environment := 0 }

/-- A `ProcessConfiguration` stub that always fails. -/
def failPc : String → String → ActionResult (ConfigPayload Nat) :=
  fun _ _ => .err "Failed to process configuration" "boom"

/-- A `ProcessEnvironmentConfig` stub that always fails, with the same
message as a missing version so both failure paths can be exercised at
once. -/
def failPe : String → ActionResult Nat :=
  fun _ => .err "Version not found in configuration file" "boom"

/-- A `ProcessEnvironmentConfig` stub that always succeeds with `42`. -/
def okPe : String → ActionResult Nat :=
  fun _ => .ok "Environment config processed" 42

/-- A `ProcessConfiguration` stub that always succeeds with a fixed
payload. -/
def okPc : String → String → ActionResult (ConfigPayload Nat) :=
  fun _ _ => .ok "Configuration processed" { api := 7, site := sampleSite }

/-! # Theorems -/

/-- C8: appending an item to `navbarItems` and then removing the element
at the last index restores the original ordered sequence exactly. -/
theorem navbar_append_then_remove_last (l : List NavbarItem) (x : NavbarItem) :
    navbarRemoveAt (navbarAppend l x) l.length = l := by
  induction l with
  | nil => rfl
  | cons a l ih =>
    simpa [navbarAppend, navbarRemoveAt, List.eraseIdx] using ih

/-- C9 counterexample: the suggested download name at a concrete
timestamp is not of the form `<unix-timestamp>-config.zip` for any
timestamp, because the literal suffix the source appends is
`-gIndex.config.zip`. -/
theorem download_name_not_config_zip :
    ¬ ∃ ts : Nat, downloadName 1700000000000 = Nat.repr ts ++ "-config.zip" := by
  rintro ⟨ts, h⟩
  have h2 := congrArg (fun s => s.data.reverse.take 11) h
  simp only [String.data_append, List.reverse_append] at h2
  rw [List.take_left' (by decide : (("-config.zip" : String).data.reverse).length = 11)] at h2
  exact absurd h2 (by decide)

/-- C9 amended: the suggested download name is the decimal millisecond
unix timestamp followed by the literal suffix `-gIndex.config.zip`. -/
theorem download_name_shape (now : Nat) :
    (downloadName now).data.take (Nat.repr now).data.length = (Nat.repr now).data ∧
    (downloadName now).data.drop (Nat.repr now).data.length = ("-gIndex.config.zip" : String).data := by
  have h : (downloadName now).data = (Nat.repr now).data ++ ("-gIndex.config.zip" : String).data :=
    String.data_append ..
  rw [h]
  exact ⟨List.take_left .., List.drop_left ..⟩

/-- C2 counterexample: `formatFooterContent` reads the ambient current
year, so two invocations with identical `lines` and `site` arguments can
differ when the ambient year differs. -/
theorem render_depends_on_ambient_year :
    formatFooterContent sampleEnv (some sampleSite) [⟨"{{ year }}"⟩] ≠
      formatFooterContent sampleEnv2025 (some sampleSite) [⟨"{{ year }}"⟩] := by
  decide

/-- C2 amended: `formatFooterContent` is deterministic given its inputs
and the ambient environment (current year, running version, global site
config), and reads the site settings only through `siteAuthor`,
`siteName` and `twitterHandle`. -/
theorem render_deterministic (env : AmbientEnv) (lines : List FooterItem)
    (s1 s2 : SiteConfig)
    (ha : s1.siteAuthor = s2.siteAuthor) (hn : s1.siteName = s2.siteName)
    (hh : s1.twitterHandle = s2.twitterHandle) :
    formatFooterContent env (some s1) lines = formatFooterContent env (some s2) lines := by
  have hmap : formatMapLookup env s1 = formatMapLookup env s2 := by
    funext k
    simp only [formatMapLookup, ha, hn, hh]
  simp only [formatFooterContent, Option.getD_some, hmap]

/-- C2 witness: two site configurations that differ in a field outside
the three read ones render identically. -/
theorem render_deterministic_witness :
    formatFooterContent sampleEnv (some sampleSite) [⟨"{{ author }}"⟩] =
      formatFooterContent sampleEnv (some { sampleSite with robots := "none" })
        [⟨"{{ author }}"⟩] :=
  render_deterministic sampleEnv [⟨"{{ author }}"⟩] sampleSite
    { sampleSite with robots := "none" } rfl rfl rfl

/-- C5: a load operation that ends in a failure toast leaves the
document untouched, for both the config load and the environment load,
whatever the file-pick response, the processing actions, and the stage
that fails. -/
theorem failed_load_preserves_document {Api Env : Type}
    (table : List (String × List String))
    (pc : String → String → ActionResult (ConfigPayload Api))
    (pe : String → ActionResult Env)
    (doc : Document Api Env) (resp : PickFileResponse) (m : String) :
    ((onLoadConfig table pc doc resp).2 = .failure m →
      (onLoadConfig table pc doc resp).1 = doc) ∧
    ((onLoadEnv pe doc resp).2 = .failure m →
      (onLoadEnv pe doc resp).1 = doc) := by
  constructor
  · cases resp with
    | err m d => intro _; rfl
    | ok data =>
      cases hd : detectVersion data with
      | none => intro _; simp [onLoadConfig, hd]
      | some v =>
        cases hc : classify table v with
        | none => intro _; simp [onLoadConfig, hd, hc]
        | some g =>
          cases hp : pc data g with
          | err m e => intro _; simp [onLoadConfig, hd, hc, hp]
          | ok m payload =>
            intro hout
            simp [onLoadConfig, hd, hc, hp] at hout
  · cases resp with
    | err m d => intro _; rfl
    | ok data =>
      cases hp : pe data with
      | err m e => intro _; simp [onLoadEnv, hp]
      | ok m d =>
        intro hout
        simp [onLoadEnv, hp] at hout

/-- C5 witness: a config load whose version detection fails and an
environment load whose processing fails both leave the concrete document
unchanged. -/
theorem failed_load_preserves_document_witness :
    (onLoadConfig versionExpectMap failPc docW (.ok "no ver here")).1 = docW ∧
    (onLoadEnv failPe docW (.ok "no ver here")).1 = docW :=
  ⟨(failed_load_preserves_document versionExpectMap failPc failPe docW
      (.ok "no ver here") "Version not found in configuration file").1 (by decide),
   (failed_load_preserves_document versionExpectMap failPc failPe docW
      (.ok "no ver here") "Version not found in configuration file").2 (by decide)⟩

/-- C10: each load writes only its own sections: an environment load
never changes `site` or `api`, a config load never changes
`environment`; on success the environment load stores exactly the
processed environment, and the config load replaces exactly `api` and
`site` with the processed payload. -/
theorem load_frame {Api Env : Type}
    (table : List (String × List String))
    (pc : String → String → ActionResult (ConfigPayload Api))
    (pe : String → ActionResult Env)
    (doc : Document Api Env) (resp : PickFileResponse) :
    ((onLoadEnv pe doc resp).1.site = doc.site ∧
      (onLoadEnv pe doc resp).1.api = doc.api) ∧
    ((onLoadConfig table pc doc resp).1.environment = doc.environment) ∧
    (∀ data m d, pe data = .ok m d →
      (onLoadEnv pe doc (.ok data)).1.environment = d) ∧
    (∀ data v g m p, detectVersion data = some v → classify table v = some g →
      pc data g = .ok m p →
      (onLoadConfig table pc doc (.ok data)).1 =
        { doc with api := p.api, site := p.site }) := by
  refine ⟨?_, ?_, ?_, ?_⟩
  · cases resp with
    | err m d => exact ⟨rfl, rfl⟩
    | ok data =>
      cases hp : pe data with
      | err m e => simp [onLoadEnv, hp]
      | ok m d => simp [onLoadEnv, hp]
  · cases resp with
    | err m d => rfl
    | ok data =>
      cases hd : detectVersion data with
      | none => simp [onLoadConfig, hd]
      | some v =>
        cases hc : classify table v with
        | none => simp [onLoadConfig, hd, hc]
        | some g =>
          cases hp : pc data g with
          | err m e => simp [onLoadConfig, hd, hc, hp]
          | ok m payload => simp [onLoadConfig, hd, hc, hp]
  · intro data m d hp
    simp [onLoadEnv, hp]
  · intro data v g m p hd hc hp
    simp [onLoadConfig, hd, hc, hp]

/-- C10 witness: a concrete successful environment load stores the
processed value, and a concrete successful config load replaces `api`
and `site` with the processed payload. -/
theorem load_frame_witness :
    (onLoadEnv okPe docW (.ok "x")).1.environment = 42 ∧
    (onLoadConfig versionExpectMap okPc docW (.ok "version: 1.0.0")).1 =
      { docW with api := 7, site := sampleSite } :=
  ⟨(load_frame versionExpectMap okPc okPe docW (.ok "x")).2.2.1 "x"
      "Environment config processed" 42 rfl,
   (load_frame versionExpectMap okPc okPe docW (.ok "version: 1.0.0")).2.2.2
      "version: 1.0.0" "1.0.0" "v1" "Configuration processed"
      { api := 7, site := sampleSite } (by decide) (by decide) rfl⟩

/-- Helper: get membership out of the boolean `contains` test used by
`classify`. -/
theorem mem_of_contains {v : String} {l : List String} (h : l.contains v = true) :
    v ∈ l := by
  simpa [List.contains] using List.mem_of_elem_eq_true h

/-- C4: against the version-group table, `classify` sends `"1.2.0"` to
`"v1"`; it returns `none` (the hard `Version not recognized` failure)
exactly when no group set contains the version; and the table's group
sets are pairwise disjoint, so every version belongs to at most one
group and no ambiguous match exists. -/
theorem classify_version_group (v : String) :
    classify versionExpectMap "1.2.0" = some "v1" ∧
    (classify versionExpectMap v = none ↔
      ∀ p ∈ versionExpectMap, p.2.contains v = false) ∧
    (∀ p q, p ∈ versionExpectMap → q ∈ versionExpectMap →
      p.2.contains v = true → q.2.contains v = true → p = q) := by
  refine ⟨by decide, ?_, ?_⟩
  · simp [classify, Option.map_eq_none', List.find?_eq_none]
  · intro p q hp hq hpv hqv
    have h1 := mem_of_contains hpv
    have h2 := mem_of_contains hqv
    fin_cases hp <;> fin_cases hq <;> first
      | rfl
      | (exfalso; simp_all)

/-- C4 witness: the uniqueness part instantiated at version `"1.2.0"`
and the group `"v1"`, together with the classification example. -/
theorem classify_version_group_witness :
    (("v1", ["1.0.0", "1.2.0"]) : String × List String) = ("v1", ["1.0.0", "1.2.0"]) ∧
    classify versionExpectMap "1.2.0" = some "v1" :=
  ⟨(classify_version_group "1.2.0").2.2 ("v1", ["1.0.0", "1.2.0"])
      ("v1", ["1.0.0", "1.2.0"]) (by decide) (by decide) (by decide) (by decide),
   (classify_version_group "1.2.0").1⟩

/-- Helper: the position scan underlying `detectVersion` returns `none`
exactly when the version regex matches at no suffix of the text. -/
theorem scanVersion_eq_none_iff (l : List Char) :
    scanVersion l = none ↔ ∀ l2, l2 <:+ l → matchVersionAt l2 = none := by
  induction l with
  | nil =>
    constructor
    · intro _ l2 h2
      rw [List.suffix_nil.mp h2]
      decide
    · intro _
      rfl
  | cons c cs ih =>
    simp only [scanVersion]
    cases h : matchVersionAt (c :: cs) with
    | some v =>
      rw [iff_false_intro (by simp : ¬(some v = none))]
      constructor
      · intro h0; exact h0.elim
      · intro hall
        exact absurd (hall (c :: cs) (List.suffix_refl _)) (by simp [h])
    | none =>
      rw [ih]
      constructor
      · intro hall l2 h2
        rcases List.suffix_cons_iff.mp h2 with h2 | h2
        · rw [h2]; exact h
        · exact hall l2 h2
      · intro hall l2 h2
        exact hall l2 (h2.trans (List.suffix_cons c cs))

/-- Helper: a version returned by the position scan comes from a match
of the version regex at some suffix of the text. -/
theorem scanVersion_eq_some (l : List Char) (w : List Char)
    (h : scanVersion l = some w) :
    ∃ l2, l2 <:+ l ∧ matchVersionAt l2 = some w := by
  induction l with
  | nil => exact absurd h (by simp [scanVersion])
  | cons c cs ih =>
    simp only [scanVersion] at h
    cases hm : matchVersionAt (c :: cs) with
    | some v =>
      rw [hm] at h
      cases h
      exact ⟨c :: cs, List.suffix_refl _, hm⟩
    | none =>
      rw [hm] at h
      obtain ⟨l2, hs, hmv⟩ := ih h
      exact ⟨l2, hs.trans (List.suffix_cons c cs), hmv⟩

/-- C3: `detectVersion` fails (the `Version not found` path) exactly
when the `version:` regex matches nowhere in the text; any returned
version is the capture of an actual match; and on a text containing
`version: "1.2.0"` it returns `"1.2.0"` while a text with no `version:`
token fails. -/
theorem detectVersion_spec :
    (∀ s : String, detectVersion s = none ↔
      ∀ l, l <:+ s.data → matchVersionAt l = none) ∧
    (∀ s v, detectVersion s = some v →
      ∃ l, l <:+ s.data ∧ matchVersionAt l = some v.data) ∧
    detectVersion "export const config = ... version: \x221.2.0\x22 ..." = some "1.2.0" ∧
    detectVersion "no semantic ver here" = none := by
  refine ⟨?_, ?_, by decide, by decide⟩
  · intro s
    rw [detectVersion, Option.map_eq_none']
    exact scanVersion_eq_none_iff s.data
  · intro s v hv
    rw [detectVersion, Option.map_eq_some'] at hv
    obtain ⟨w, hw, hmk⟩ := hv
    obtain ⟨l2, hs, hm⟩ := scanVersion_eq_some s.data w hw
    refine ⟨l2, hs, ?_⟩
    rw [hm, ← hmk]

/-- C3 witness: the completeness part instantiated at a concrete text
that carries a version assignment. -/
theorem detectVersion_spec_witness :
    ∃ l, l <:+ ("version: 1.0.0" : String).data ∧
      matchVersionAt l = some ("1.0.0" : String).data :=
  detectVersion_spec.2.1 "version: 1.0.0" "1.0.0" (by decide)

/-- Helper: a `\w` character is never a `\s` character. -/
theorem jsWordChar_not_ws {c : Char} (h : jsWordChar c = true) :
    jsWhitespace c = false := by
  by_contra hws
  rw [Bool.not_eq_false] at hws
  simp only [jsWordChar, Bool.or_eq_true, Bool.and_eq_true, decide_eq_true_eq] at h
  simp only [jsWhitespace, Bool.or_eq_true, Bool.and_eq_true, decide_eq_true_eq] at hws
  omega

/-- Helper: `takeWhile` on a block that satisfies the predicate followed
by a failing element takes exactly the block. -/
theorem takeWhile_append_all {p : Char → Bool} {k : List Char} {a : Char} {r : List Char}
    (hk : ∀ c ∈ k, p c = true) (ha : p a = false) :
    (k ++ a :: r).takeWhile p = k := by
  induction k with
  | nil => simp [List.takeWhile_cons, ha]
  | cons c kk ih =>
    have hc : p c = true := hk c (by simp)
    simp [List.takeWhile_cons, hc, ih (fun x hx => hk x (by simp [hx]))]

/-- Helper: `dropWhile` on a block that satisfies the predicate followed
by a failing element drops exactly the block. -/
theorem dropWhile_append_all {p : Char → Bool} {k : List Char} {a : Char} {r : List Char}
    (hk : ∀ c ∈ k, p c = true) (ha : p a = false) :
    (k ++ a :: r).dropWhile p = a :: r := by
  induction k with
  | nil => simp [List.dropWhile_cons, ha]
  | cons c kk ih =>
    have hc : p c = true := hk c (by simp)
    simp [List.dropWhile_cons, hc, ih (fun x hx => hk x (by simp [hx]))]

/-- Helper: `dropWhile` does nothing when the first element already
fails the predicate. -/
theorem dropWhile_stops {p : Char → Bool} {k r : List Char}
    (h0 : k ≠ []) (hk : ∀ c ∈ k, p c = false) :
    (k ++ r).dropWhile p = k ++ r := by
  cases k with
  | nil => exact absurd rfl h0
  | cons c kk => simp [List.dropWhile_cons, hk c (by simp)]

/-- Helper: a braced token line is unchanged by `trim`, since it starts
and ends with a brace. -/
theorem jsTrimL_braced (m : List Char) :
    jsTrimL ('{' :: '{' :: ' ' :: (m ++ [' ', '}', '}'])) =
      '{' :: '{' :: ' ' :: (m ++ [' ', '}', '}']) := by
  unfold jsTrimL
  rw [List.dropWhile_cons, if_neg (by decide)]
  have hrev : ('{' :: '{' :: ' ' :: (m ++ [' ', '}', '}'])).reverse
      = '}' :: '}' :: ' ' :: (m.reverse ++ [' ', '{', '{']) := by
    simp
  rw [hrev, List.dropWhile_cons, if_neg (by decide), ← hrev, List.reverse_reverse]

/-- Helper: the token regex matches a `{{ key }}` group whose key is a
nonempty run of word characters, capturing the key. -/
theorem tokenAt_braced (k : List Char) (h0 : k ≠ [])
    (hw : ∀ c ∈ k, jsWordChar c = true) :
    tokenAt ('{' :: '{' :: ' ' :: (k ++ [' ', '}', '}'])) = some (k, []) := by
  have hws : ∀ c ∈ k, jsWhitespace c = false := fun c hc => jsWordChar_not_ws (hw c hc)
  have e1 : List.dropWhile jsWhitespace (' ' :: (k ++ ' ' :: '}' :: '}' :: []))
      = k ++ ' ' :: '}' :: '}' :: [] := by
    rw [List.dropWhile_cons, if_pos (by decide)]
    exact dropWhile_stops h0 hws
  have e2 : List.takeWhile jsWordChar (k ++ ' ' :: '}' :: '}' :: []) = k :=
    takeWhile_append_all hw (by decide)
  have e3 : List.dropWhile jsWordChar (k ++ ' ' :: '}' :: '}' :: [])
      = ' ' :: '}' :: '}' :: [] :=
    dropWhile_append_all hw (by decide)
  have e4 : List.dropWhile jsWhitespace (' ' :: '}' :: '}' :: []) = '}' :: '}' :: [] := by
    decide
  simp only [tokenAt, e1, e2, e3, e4, if_neg h0]

/-- Helper: the token replacement returns an empty output on empty
input, whatever fuel remains. -/
theorem replaceTokensGo_nil (lookup : String → String) (f : Nat) :
    replaceTokensGo lookup f [] = [] := by
  cases f <;> rfl

/-- Helper: replacing tokens in a line that is exactly one `{{ key }}`
group yields the looked-up value. -/
theorem replaceTokens_braced (lookup : String → String) (k : List Char)
    (h0 : k ≠ []) (hw : ∀ c ∈ k, jsWordChar c = true) :
    replaceTokens lookup ('{' :: '{' :: ' ' :: (k ++ [' ', '}', '}'])) =
      (lookup (String.mk k)).data := by
  have hlen : ('{' :: '{' :: ' ' :: (k ++ [' ', '}', '}'])).length = k.length + 5 + 1 := by
    simp [List.length_append]
  rw [replaceTokens, hlen]
  simp only [replaceTokensGo, tokenAt_braced k h0 hw, replaceTokensGo_nil, List.append_nil]

/-- Helper: rendering a footer consisting of the single line
`{{ key }}` with a word-character key produces the `formatMap` value of
that key, or the empty string when the key is absent. -/
theorem formatFooterContent_single_token (env : AmbientEnv) (site : SiteConfig)
    (k : String) (h0 : k.data ≠ []) (hw : ∀ c ∈ k.data, jsWordChar c = true) :
    formatFooterContent env (some site) [⟨"\x7b\x7b " ++ k ++ " \x7d\x7d"⟩] =
      (formatMapLookup env site k).getD "" := by
  have hdata : ("\x7b\x7b " ++ k ++ " \x7d\x7d").data
      = '{' :: '{' :: ' ' :: (k.data ++ [' ', '}', '}']) := rfl
  show String.mk (replaceTokens (fun kk => (formatMapLookup env site kk).getD "")
      (jsTrimL ("\x7b\x7b " ++ k ++ " \x7d\x7d").data)) = (formatMapLookup env site k).getD ""
  rw [hdata, jsTrimL_braced, replaceTokens_braced _ k.data h0 hw]

/-- C1: `formatFooterContent` trims each line, joins the trimmed lines
with a newline, and substitutes every `{{ key }}` token from the fixed
lookup table: the spec's example renders to `"Built by mbaharip\n2024"`
under the ambient year 2024, trimming and joining behave as described,
and each of the eight table keys renders to its table value for every
ambient environment and site configuration. -/
theorem formatFooterContent_renders_table :
    (formatFooterContent sampleEnv (some sampleSite)
        [⟨"Built by {{ creator }}"⟩, ⟨"{{ year }}"⟩] = "Built by mbaharip\n2024") ∧
    (∀ env site, formatFooterContent env (some site)
        [⟨"  hello  "⟩, ⟨" world "⟩] = "hello\nworld") ∧
    (∀ env site, formatFooterContent env (some site) [⟨"{{ year }}"⟩]
        = Nat.repr env.year) ∧
    (∀ env site, formatFooterContent env (some site) [⟨"{{ repository }}"⟩]
        = "[Source Code](https://github.com/mbaharip/next-gdrive-index)") ∧
    (∀ env site, formatFooterContent env (some site) [⟨"{{ poweredBy }}"⟩]
        = "Powered by [next-gdrive-index v" ++ versionInterp env.version ++
          "](https://github.com/mbaharip/next-gdrive-index)") ∧
    (∀ env site, formatFooterContent env (some site) [⟨"{{ author }}"⟩]
        = site.siteAuthor.getD "mbaharip") ∧
    (∀ env site, formatFooterContent env (some site) [⟨"{{ version }}"⟩]
        = env.version.getD "0.0.0") ∧
    (∀ env site, formatFooterContent env (some site) [⟨"{{ siteName }}"⟩]
        = site.siteName.getD "next-gdrive-index") ∧
    (∀ env site, formatFooterContent env (some site) [⟨"{{ handle }}"⟩]
        = site.twitterHandle.getD "@__mbaharip__") ∧
    (∀ env site, formatFooterContent env (some site) [⟨"{{ creator }}"⟩]
        = "mbaharip") := by
  refine ⟨by decide, fun env site => rfl,
    ?_, ?_, ?_, ?_, ?_, ?_, ?_, ?_⟩ <;>
    intro env site
  · have h := formatFooterContent_single_token env site "year" (by decide) (by decide)
    rw [show ("\x7b\x7b " ++ "year" ++ " \x7d\x7d" : String) = "{{ year }}" from rfl] at h
    rw [h]; rfl
  · have h := formatFooterContent_single_token env site "repository" (by decide) (by decide)
    rw [show ("\x7b\x7b " ++ "repository" ++ " \x7d\x7d" : String) = "{{ repository }}" from rfl] at h
    rw [h]; rfl
  · have h := formatFooterContent_single_token env site "poweredBy" (by decide) (by decide)
    rw [show ("\x7b\x7b " ++ "poweredBy" ++ " \x7d\x7d" : String) = "{{ poweredBy }}" from rfl] at h
    rw [h]; rfl
  · have h := formatFooterContent_single_token env site "author" (by decide) (by decide)
    rw [show ("\x7b\x7b " ++ "author" ++ " \x7d\x7d" : String) = "{{ author }}" from rfl] at h
    rw [h]; rfl
  · have h := formatFooterContent_single_token env site "version" (by decide) (by decide)
    rw [show ("\x7b\x7b " ++ "version" ++ " \x7d\x7d" : String) = "{{ version }}" from rfl] at h
    rw [h]; rfl
  · have h := formatFooterContent_single_token env site "siteName" (by decide) (by decide)
    rw [show ("\x7b\x7b " ++ "siteName" ++ " \x7d\x7d" : String) = "{{ siteName }}" from rfl] at h
    rw [h]; rfl
  · have h := formatFooterContent_single_token env site "handle" (by decide) (by decide)
    rw [show ("\x7b\x7b " ++ "handle" ++ " \x7d\x7d" : String) = "{{ handle }}" from rfl] at h
    rw [h]; rfl
  · have h := formatFooterContent_single_token env site "creator" (by decide) (by decide)
    rw [show ("\x7b\x7b " ++ "creator" ++ " \x7d\x7d" : String) = "{{ creator }}" from rfl] at h
    rw [h]; rfl

/-- C7: a `{{ key }}` token whose bare-identifier key is not one of the
eight table keys renders as the empty string without failing, both for a
line that is exactly the token and for a token embedded in a line. -/
theorem footer_unknown_key_empty (env : AmbientEnv) (site : SiteConfig) :
    (∀ k : String, k.data ≠ [] → (∀ c ∈ k.data, jsWordChar c = true) →
      k ∉ (["year", "repository", "poweredBy", "author", "version",
            "siteName", "handle", "creator"] : List String) →
      formatFooterContent env (some site) [⟨"\x7b\x7b " ++ k ++ " \x7d\x7d"⟩] = "") ∧
    formatFooterContent env (some site) [⟨"a {{ foo }} b"⟩] = "a  b" := by
  constructor
  · intro k h0 hw hk
    rw [formatFooterContent_single_token env site k h0 hw]
    simp only [List.mem_cons, List.mem_singleton, not_or] at hk
    obtain ⟨h1, h2, h3, h4, h5, h6, h7, h8⟩ := hk
    simp [formatMapLookup, h1, h2, h3, h4, h5, h6, h7, h8]
  · rfl

/-- C7 witness: the unknown key `foo` renders as the empty string. -/
theorem footer_unknown_key_empty_witness :
    formatFooterContent sampleEnv (some sampleSite) [⟨"{{ foo }}"⟩] = "" := by
  have h := (footer_unknown_key_empty sampleEnv sampleSite).1 "foo"
    (by decide) (by decide) (by decide)
  rwa [show ("\x7b\x7b " ++ "foo" ++ " \x7d\x7d" : String) = "{{ foo }}" from rfl] at h

/-- Helper: a dollar-free replacement string is substituted literally. -/
theorem getSubst_no_dollar (matched before after : List Char) :
    ∀ rep : List Char, '$' ∉ rep → getSubst matched before after rep = rep := by
  intro rep
  induction rep with
  | nil => intro _; rfl
  | cons c r ih =>
    intro h
    have hc : c ≠ '$' := fun hcc => h (by subst hcc; exact List.mem_cons_self _ _)
    have e : getSubst matched before after (c :: r)
        = c :: getSubst matched before after r := by
      unfold getSubst
      rw [if_neg hc, ← getSubst.eq_def]
    rw [e, ih (fun hx => h (List.mem_cons_of_mem c hx))]

/-- Helper: a two-character pattern is a prefix of a two-or-longer list
exactly when it matches the two head characters. -/
theorem pair_prefix_cons₂ {a b c d : Char} {cs : List Char} :
    [a, b] <+: c :: d :: cs ↔ c = a ∧ d = b := by
  rw [List.cons_prefix_cons, List.cons_prefix_cons]
  simp [ List.nil_prefix, eq_comm]

/-- Helper: a two-character pattern is never a prefix of a singleton. -/
theorem pair_not_prefix_single {a b c : Char} : ¬ [a, b] <+: [c] := by
  rw [List.cons_prefix_cons]
  rintro ⟨-, h⟩
  have := List.prefix_nil.mp h
  simp at this

/-- Helper: when `%t` is a prefix. -/
theorem tokT_prefix_iff {c d : Char} {cs : List Char} :
    tokT <+: c :: d :: cs ↔ c = '%' ∧ d = 't' := by
  unfold tokT
  exact pair_prefix_cons₂

/-- Helper: `%t` is not a prefix of a singleton. -/
theorem tokT_not_prefix_single {c : Char} : ¬ tokT <+: [c] := by
  unfold tokT
  exact pair_not_prefix_single

/-- Helper: `%s` is not a prefix of a singleton. -/
theorem tokS_not_prefix_single {c : Char} : ¬ tokS <+: [c] := by
  unfold tokS
  exact pair_not_prefix_single

/-- Helper: when `%s` is a prefix. -/
theorem tokS_prefix_iff {c d : Char} {cs : List Char} :
    tokS <+: c :: d :: cs ↔ c = '%' ∧ d = 's' := by
  unfold tokS
  exact pair_prefix_cons₂

/-- Helper: `firstSplit` at a matching position. -/
theorem firstSplit_cons_pos {pat : List Char} {c : Char} {cs : List Char}
    (hp : pat <+: c :: cs) :
    firstSplit pat (c :: cs) = some ([], (c :: cs).drop pat.length) := by
  have hb : pat.isPrefixOf (c :: cs) = true := List.isPrefixOf_iff_prefix.mpr hp
  simp [firstSplit, hb]

/-- Helper: `firstSplit` at a non-matching position. -/
theorem firstSplit_cons_neg {pat : List Char} {c : Char} {cs : List Char}
    (hp : ¬ pat <+: c :: cs) :
    firstSplit pat (c :: cs) =
      match firstSplit pat cs with
      | some (a, b) => some (c :: a, b)
      | none => none := by
  have hb : pat.isPrefixOf (c :: cs) = false := by
    cases h : pat.isPrefixOf (c :: cs)
    · rfl
    · exact absurd ( List.isPrefixOf_iff_prefix.mp h) hp
  simp [firstSplit, hb]

/-- Helper: literal first-occurrence replacement at a matching position. -/
theorem repFirstL_cons_pos {pat rep : List Char} {c : Char} {cs : List Char}
    (hp : pat <+: c :: cs) :
    repFirstL pat rep (c :: cs) = rep ++ (c :: cs).drop pat.length := by
  have hb : pat.isPrefixOf (c :: cs) = true := List.isPrefixOf_iff_prefix.mpr hp
  simp [repFirstL, hb]

/-- Helper: literal first-occurrence replacement at a non-matching
position. -/
theorem repFirstL_cons_neg {pat rep : List Char} {c : Char} {cs : List Char}
    (hp : ¬ pat <+: c :: cs) :
    repFirstL pat rep (c :: cs) = c :: repFirstL pat rep cs := by
  have hb : pat.isPrefixOf (c :: cs) = false := by
    cases h : pat.isPrefixOf (c :: cs)
    · rfl
    · exact absurd ( List.isPrefixOf_iff_prefix.mp h) hp
  simp [repFirstL, hb]

/-- Helper: with a nonempty pattern and a dollar-free replacement,
JavaScript `replace` is plain first-occurrence replacement. -/
theorem jsReplaceFirstL_eq_repFirstL (pat rep : List Char) (hpat : pat ≠ [])
    (hrep : '$' ∉ rep) : ∀ l, jsReplaceFirstL pat rep l = repFirstL pat rep l := by
  intro l
  induction l with
  | nil =>
    have h1 : firstSplit pat [] = none := by simp [firstSplit, hpat]
    simp [jsReplaceFirstL, h1, repFirstL]
  | cons c cs ih =>
    by_cases hp : pat <+: c :: cs
    · rw [repFirstL_cons_pos hp]
      simp [jsReplaceFirstL, firstSplit_cons_pos hp,
        getSubst_no_dollar _ _ _ rep hrep]
    · rw [repFirstL_cons_neg hp, ← ih]
      cases hfs : firstSplit pat cs with
      | none =>
        have h1 : firstSplit pat (c :: cs) = none := by
          rw [firstSplit_cons_neg hp, hfs]
        simp [jsReplaceFirstL, h1, hfs]
      | some ab =>
        obtain ⟨a, b⟩ := ab
        have h1 : firstSplit pat (c :: cs) = some (c :: a, b) := by
          rw [firstSplit_cons_neg hp, hfs]
        simp [jsReplaceFirstL, h1, hfs, getSubst_no_dollar _ _ _ rep hrep]

/-- Helper: the first-token substitution rule of the spec reading. -/
theorem simulSubst_t (n s : List Char) (sd : Bool) (cs : List Char) :
    simulSubst n s false sd ('%' :: 't' :: cs) = n ++ simulSubst n s true sd cs := by
  simp [simulSubst]

/-- Helper: the second-token substitution rule of the spec reading. -/
theorem simulSubst_s (n s : List Char) (td : Bool) (cs : List Char) :
    simulSubst n s td false ('%' :: 's' :: cs) = s ++ simulSubst n s td true cs := by
  simp [simulSubst]

/-- Helper: the verbatim rule of the spec reading. -/
theorem simulSubst_other {c d : Char} (n s : List Char) (td sd : Bool) (cs : List Char)
    (ht : ¬ (td = false ∧ c = '%' ∧ d = 't'))
    (hs : ¬ (sd = false ∧ c = '%' ∧ d = 's')) :
    simulSubst n s td sd (c :: d :: cs) = c :: simulSubst n s td sd (d :: cs) := by
  simp only [simulSubst]
  rw [if_neg ht, if_neg hs]

/-- Helper: once both tokens are substituted, the rest is verbatim. -/
theorem simulSubst_done (n s : List Char) : ∀ l, simulSubst n s true true l = l := by
  intro l
  induction l with
  | nil => rfl
  | cons c cs ih =>
    cases cs with
    | nil => rfl
    | cons d cs' =>
      rw [simulSubst_other n s true true cs' (by simp) (by simp), ih]

/-- Helper: after `%t` is substituted, the remaining substitution is the
first-occurrence replacement of `%s`. -/
theorem simulSubst_tdone (n s : List Char) :
    ∀ l, simulSubst n s true false l = repFirstL tokS s l := by
  intro l
  induction l with
  | nil => rfl
  | cons c cs ih =>
    cases cs with
    | nil =>
      rw [repFirstL_cons_neg tokS_not_prefix_single]
      rfl
    | cons d cs' =>
      by_cases hcd : c = '%' ∧ d = 's'
      · obtain ⟨rfl, rfl⟩ := hcd
        rw [simulSubst_s n s true cs', simulSubst_done,
          repFirstL_cons_pos (⟨cs', rfl⟩ : tokS <+: '%' :: 's' :: cs')]
        rfl
      · rw [simulSubst_other n s true false cs' (by simp) (by simpa using hcd),
          repFirstL_cons_neg (fun hp => hcd (tokS_prefix_iff.mp hp)), ih]

/-- Helper: after `%s` is substituted, the remaining substitution is the
first-occurrence replacement of `%t`. -/
theorem simulSubst_sdone (n s : List Char) :
    ∀ l, simulSubst n s false true l = repFirstL tokT n l := by
  intro l
  induction l with
  | nil => rfl
  | cons c cs ih =>
    cases cs with
    | nil =>
      rw [repFirstL_cons_neg tokT_not_prefix_single]
      rfl
    | cons d cs' =>
      by_cases hcd : c = '%' ∧ d = 't'
      · obtain ⟨rfl, rfl⟩ := hcd
        rw [simulSubst_t n s true cs', simulSubst_done,
          repFirstL_cons_pos (⟨cs', rfl⟩ : tokT <+: '%' :: 't' :: cs')]
        rfl
      · rw [simulSubst_other n s false true cs' (by simpa using hcd) (by simp),
          repFirstL_cons_neg (fun hp => hcd (tokT_prefix_iff.mp hp)), ih]

/-- Helper: a block without `%` passes through the `%s` replacement. -/
theorem repFirstL_append_no_pct (s : List Char) :
    ∀ n r : List Char, '%' ∉ n →
      repFirstL tokS s (n ++ r) = n ++ repFirstL tokS s r := by
  intro n
  induction n with
  | nil => intro r _; simp
  | cons a n' ih =>
    intro r h1
    have hp : ¬ tokS <+: a :: (n' ++ r) := by
      unfold tokS
      rw [List.cons_prefix_cons]
      rintro ⟨rfl, -⟩
      exact h1 (List.mem_cons_self _ _)
    rw [List.cons_append, repFirstL_cons_neg hp,
      ih r (fun hx => h1 (List.mem_cons_of_mem a hx)), List.cons_append]

/-- Helper: substituting `%t` in a list that does not start with `s`
cannot create a `%s` token at the preceding `%`, when the site name is
nonempty and contains no `s`. -/
theorem tokS_seam (n : List Char) (h0 : n ≠ []) (h2 : 's' ∉ n)
    (d : Char) (cs : List Char) (hd : d ≠ 's') :
    ¬ tokS <+: '%' :: repFirstL tokT n (d :: cs) := by
  by_cases hp : tokT <+: d :: cs
  · rw [repFirstL_cons_pos hp]
    obtain ⟨a, n', rfl⟩ : ∃ a n', n = a :: n' := by
      cases n with
      | nil => exact absurd rfl h0
      | cons a n' => exact ⟨a, n', rfl⟩
    rw [List.cons_append]
    intro hpref
    exact h2 (by rw [(tokS_prefix_iff.mp hpref).2]; exact List.mem_cons_self _ _)
  · rw [repFirstL_cons_neg hp]
    intro hpref
    exact hd (tokS_prefix_iff.mp hpref).2

/-- Helper: under the seam conditions on the site name, the sequential
replacement of the source equals the independent per-token substitution
of the spec. -/
theorem repFirst_seq_eq_simul (n s : List Char) (h0 : n ≠ [])
    (h1 : '%' ∉ n) (h2 : 's' ∉ n) :
    ∀ t, repFirstL tokS s (repFirstL tokT n t) = simulSubst n s false false t := by
  intro t
  induction t with
  | nil => rfl
  | cons c cs ih =>
    cases cs with
    | nil =>
      have e0 : repFirstL tokT n [c] = [c] := by
        rw [repFirstL_cons_neg tokT_not_prefix_single]
        rfl
      rw [e0, repFirstL_cons_neg tokS_not_prefix_single]
      rfl
    | cons d cs' =>
      by_cases ht : c = '%' ∧ d = 't'
      · obtain ⟨rfl, rfl⟩ := ht
        have e1 : repFirstL tokT n ('%' :: 't' :: cs') = n ++ cs' := by
          rw [repFirstL_cons_pos (⟨cs', rfl⟩ : tokT <+: '%' :: 't' :: cs')]
          rfl
        rw [e1, repFirstL_append_no_pct s n cs' h1, simulSubst_t n s false cs',
          simulSubst_tdone]
      · by_cases hs : c = '%' ∧ d = 's'
        · obtain ⟨rfl, rfl⟩ := hs
          have hnt1 : ¬ tokT <+: '%' :: 's' :: cs' := by
            rw [tokT_prefix_iff]
            rintro ⟨-, h⟩
            exact absurd h (by decide)
          have hnt2 : ¬ tokT <+: 's' :: cs' := by
            unfold tokT
            rw [List.cons_prefix_cons]
            rintro ⟨h, -⟩
            exact absurd h (by decide)
          rw [repFirstL_cons_neg hnt1, repFirstL_cons_neg hnt2,
            repFirstL_cons_pos
              (⟨repFirstL tokT n cs', rfl⟩ :
                tokS <+: '%' :: 's' :: repFirstL tokT n cs'),
            simulSubst_s n s false cs', simulSubst_sdone]
          rfl
        · have hpt : ¬ tokT <+: c :: d :: cs' := fun hp => ht (tokT_prefix_iff.mp hp)
          have hps : ¬ tokS <+: c :: repFirstL tokT n (d :: cs') := by
            by_cases hc : c = '%'
            · subst hc
              exact tokS_seam n h0 h2 d cs' (fun hdd => hs ⟨rfl, hdd⟩)
            · unfold tokS
              rw [List.cons_prefix_cons]
              rintro ⟨h, -⟩
              exact hc h.symm
          rw [repFirstL_cons_neg hpt, repFirstL_cons_neg hps,
            simulSubst_other n s false false cs' (by simpa using ht)
              (by simpa using hs), ih]

/-- C6 counterexample: for the template `%t,%s` with site name `%s` and
page title `S`, the source's sequential replacement substitutes the `%s`
introduced by the site name, so the rendered name differs from the
independent first-occurrence substitution the claim describes. -/
theorem renderSiteName_counterexample :
    renderSiteName "%t,%s" "%s" "S" = "S,%s" ∧
    specSiteName "%t,%s" "%s" "S" = "%s,S" ∧
    renderSiteName "%t,%s" "%s" "S" ≠ specSiteName "%t,%s" "%s" "S" := by
  refine ⟨by decide, by decide, by decide⟩

/-- C6 amended: the source substitutes sequentially — first the first
occurrence of `%t` by the site name, then the first occurrence of `%s`
in the result by the page title; when the substituted site name is
nonempty and contains no `%`, no `s` and no `$`, and the page title
contains no `$`, this coincides with replacing the first occurrence of
each token of the template independently, all further occurrences left
verbatim. -/
theorem renderSiteName_first_occurrence (t n s : String)
    (h0 : n.data ≠ []) (h1 : '%' ∉ n.data) (h2 : 's' ∉ n.data)
    (h3 : '$' ∉ n.data) (h4 : '$' ∉ s.data) :
    renderSiteName t n s = specSiteName t n s := by
  unfold renderSiteName specSiteName
  rw [jsReplaceFirstL_eq_repFirstL tokT n.data (by decide) h3,
      jsReplaceFirstL_eq_repFirstL tokS s.data (by decide) h4,
      repFirst_seq_eq_simul n.data s.data h0 h1 h2]

/-- C6 witness: a template with repeated tokens rendered with an
ordinary site name and page title. -/
theorem renderSiteName_first_occurrence_witness :
    renderSiteName "%s - %t %t %s" "Site" "Page" =
      specSiteName "%s - %t %t %s" "Site" "Page" :=
  renderSiteName_first_occurrence "%s - %t %t %s" "Site" "Page"
    (by decide) (by decide) (by decide) (by decide) (by decide)

end ConfigGen
